import Mathlib

/-!
Shallow embedding of `Source/Engine/GraphicsDevice/Vulkan/DescriptorSetVulkan.cpp`
(FlaxEngine): descriptor-set layout signatures, layout compilation against device
limits, descriptor pool chains, the pool-set container manager with its GC, and
the descriptor write setup. Definitions follow the C++ source; external
collaborators that are not part of the file (the CRC routine, the native
allocate-from-pool call, the chain constructor) are modelled from the spec and
marked as such in their doc comments.
-/

namespace DescriptorSetVulkan

/-- The Vulkan descriptor type enumeration, restricted to the range
`VULKAN_DESCRIPTOR_TYPE_BEGIN .. VULKAN_DESCRIPTOR_TYPE_END` used by the file
(`VK_DESCRIPTOR_TYPE_SAMPLER = 0` through `VK_DESCRIPTOR_TYPE_INPUT_ATTACHMENT = 10`). -/
inductive VkDescriptorType where
  | sampler
  | combinedImageSampler
  | sampledImage
  | storageImage
  | uniformTexelBuffer
  | storageTexelBuffer
  | uniformBuffer
  | storageBuffer
  | uniformBufferDynamic
  | storageBufferDynamic
  | inputAttachment
  deriving DecidableEq, Repr

/-- One entry of `SpirvShaderDescriptorInfo::DescriptorTypes`: a descriptor type
and its element count. -/
structure DescriptorInfo where
  DescriptorType : VkDescriptorType
  Count : Nat
  deriving DecidableEq, Repr

/-- The per-type histogram `_layoutTypes` of `DescriptorSetLayoutInfoVulkan`,
as a function from descriptor type to count. -/
def Histogram : Type := VkDescriptorType → Nat

/-- The histogram array `_layoutTypes` flattened in declaration order of the
enumeration, as `Crc::MemCrc32(_layoutTypes, sizeof(_layoutTypes))` reads it. -/
def layoutTypesList (lt : Histogram) : List Nat :=
  [lt .sampler, lt .combinedImageSampler, lt .sampledImage, lt .storageImage,
   lt .uniformTexelBuffer, lt .storageTexelBuffer, lt .uniformBuffer,
   lt .storageBuffer, lt .uniformBufferDynamic, lt .storageBufferDynamic,
   lt .inputAttachment]

/-- Modelled from the spec: `Crc::MemCrc32` (Engine/Utilities/Crc, not part of
this file) "hashes the full per-type histogram". Modelled as a deterministic
32-bit fold over the histogram entries; the claims depend only on the hash
being a function of the histogram contents. -/
def memCrc32 (data : List Nat) : Nat :=
  data.foldl (fun h b => (h * 16777619 + b) % 4294967296) 2166136261

/-- The process-wide state behind `CacheTypesUsageID`: the `static uint32
uniqueID = 1` counter and the `static Dictionary<uint32, uint32>
typesUsageHashMap` from histogram hash to assigned ID, modelled as an
association list. -/
structure TypesUsageCache where
  uniqueID : Nat
  typesUsageHashMap : List (Nat × Nat)
  deriving Repr

/-- The initial state of the static cache: `uniqueID = 1`, empty map. -/
def TypesUsageCache.init : TypesUsageCache :=
  { uniqueID := 1, typesUsageHashMap := [] }

/-- `Dictionary::TryGet` on the association list model. -/
def lookupHash : List (Nat × Nat) → Nat → Option Nat
  | [], _ => none
  | (k, v) :: rest, key => if k = key then some v else lookupHash rest key

/-- `DescriptorSetLayoutInfoVulkan::CacheTypesUsageID`: hash the histogram,
look the hash up in the shared cache under the lock, assigning the next fresh
ID when absent; returns the ID stored into `_typesUsageID` and the updated
cache. -/
def cacheTypesUsageID (lt : Histogram) (c : TypesUsageCache) : Nat × TypesUsageCache :=
  let typesUsageHash := memCrc32 (layoutTypesList lt)
  match lookupHash c.typesUsageHashMap typesUsageHash with
  | some id => (id, c)
  | none =>
    (c.uniqueID,
     { uniqueID := c.uniqueID + 1,
       typesUsageHashMap := (typesUsageHash, c.uniqueID) :: c.typesUsageHashMap })

/-- A sequence of `CacheTypesUsageID` calls against the shared cache: returns
the list of IDs assigned, in call order, and the final cache. -/
def runUsageCalls (c : TypesUsageCache) : List Histogram → List Nat × TypesUsageCache
  | [] => ([], c)
  | lt :: rest =>
    let r := cacheTypesUsageID lt c
    let r2 := runUsageCalls r.2 rest
    (r.1 :: r2.1, r2.2)

/-- `DescriptorPoolVulkan` as the allocation state of one native pool: the
running allocated-set count and the fixed capacity `_descriptorSetsMax`
(`MaxSetsAllocations` scaled at construction). The native handle itself is
external. -/
structure DescriptorPool where
  allocated : Nat
  capacity : Nat
  deriving DecidableEq, Repr

/-- Modelled from the spec: `vkAllocateDescriptorSets` (the native
allocate-from-pool call, an external boundary) returns "success/failure
(failure signals pool exhausted)". A request for `n` sets succeeds exactly
when the pool still has room for them. Wraps
`DescriptorPoolVulkan::AllocateDescriptorSets`. -/
def poolAllocate (n : Nat) (p : DescriptorPool) : Option DescriptorPool :=
  if p.allocated + n ≤ p.capacity then some { p with allocated := p.allocated + n }
  else none

/-- `DescriptorPoolVulkan::Reset`: `vkResetDescriptorPool` returns the pool to
zero allocations without destroying the native handle. -/
def poolReset (p : DescriptorPool) : DescriptorPool :=
  { p with allocated := 0 }

/-- `TypedDescriptorPoolSetVulkan`: the pool chain `_poolListHead` with the
cursor `_poolListCurrent`, modelled as the list of pools and the cursor index. -/
structure TypedPoolSet where
  pools : List DescriptorPool
  current : Nat
  deriving DecidableEq, Repr

/-- `TypedDescriptorPoolSetVulkan::Reset`: resets every pool in the chain and
rewinds `_poolListCurrent` to `_poolListHead`. -/
def tpsReset (ts : TypedPoolSet) : TypedPoolSet :=
  { pools := ts.pools.map poolReset, current := 0 }

/-- The retry loop of `TypedDescriptorPoolSetVulkan::AllocateDescriptorSets`
from the cursor onward: try the current pool; on failure `GetFreePool(true)`
advances to the next pool in the chain, or pushes a fresh pool of capacity
`newCap` (`PushNewPool`) when none remains. `done` is the prefix of the chain
before the cursor. The C++ loop never terminates when even a fresh pool cannot
satisfy the request (`n > newCap`); that divergence is modelled as `none`. -/
def tpsAllocLoop (newCap n : Nat) (done : List DescriptorPool) :
    List DescriptorPool → Option TypedPoolSet
  | [] =>
    match poolAllocate n { allocated := 0, capacity := newCap } with
    | some fresh => some { pools := done ++ [fresh], current := done.length }
    | none => none
  | p :: rest =>
    match poolAllocate n p with
    | some p2 => some { pools := done ++ p2 :: rest, current := done.length }
    | none => tpsAllocLoop newCap n (done ++ [p]) rest

/-- `TypedDescriptorPoolSetVulkan::AllocateDescriptorSets`: a layout with no
handles (`n = 0` sets) succeeds trivially without touching any pool; otherwise
allocate `n` sets starting from the cursor, growing the chain on exhaustion.
`newCap` is the capacity a freshly pushed pool gets from the layout. -/
def tpsAllocate (newCap n : Nat) (ts : TypedPoolSet) : Option TypedPoolSet :=
  if n = 0 then some ts
  else tpsAllocLoop newCap n (ts.pools.take ts.current) (ts.pools.drop ts.current)

/-- Run a sequence of allocations against a chain; every allocation must
succeed. -/
def runAllocs (newCap : Nat) : List Nat → TypedPoolSet → Option TypedPoolSet
  | [], ts => some ts
  | n :: rest, ts =>
    match tpsAllocate newCap n ts with
    | some ts2 => runAllocs newCap rest ts2
    | none => none

/-- `DescriptorPoolSetContainerVulkan`: the `_used` flag, the `_lastFrameUsed`
frame stamp, and the owned typed pool chains `_typedDescriptorPools` (keyed
map flattened to its values; the claims do not depend on the keys). -/
structure PoolSetContainer where
  used : Bool
  lastFrameUsed : Nat
  typedPools : List TypedPoolSet
  deriving DecidableEq, Repr

/-- The `DescriptorPoolSetContainerVulkan` constructor: starts used, with
`_lastFrameUsed = Engine::FrameCount` at construction time and no typed pools. -/
def mkPoolSetContainer (frameCount : Nat) : PoolSetContainer :=
  { used := true, lastFrameUsed := frameCount, typedPools := [] }

/-- `DescriptorPoolSetContainerVulkan::SetUsed`: `_used = used;
_lastFrameUsed = used ? Engine::FrameCount : _lastFrameUsed;`. -/
def containerSetUsed (frameCount : Nat) (used : Bool) (c : PoolSetContainer) :
    PoolSetContainer :=
  { c with used := used,
           lastFrameUsed := if used then frameCount else c.lastFrameUsed }

/-- `DescriptorPoolSetContainerVulkan::IsUnused`: `!_used`. -/
def containerIsUnused (c : PoolSetContainer) : Bool :=
  !c.used

/-- `DescriptorPoolSetContainerVulkan::Reset`: resets every owned typed pool
set. -/
def containerReset (c : PoolSetContainer) : PoolSetContainer :=
  { c with typedPools := c.typedPools.map tpsReset }

/-- Index of the first container with `IsUnused()` true, as scanned by the
range-for in `AcquirePoolSetContainer`. -/
def findFirstUnused : List PoolSetContainer → Option Nat
  | [] => none
  | c :: rest =>
    if containerIsUnused c then some 0
    else (findFirstUnused rest).map (· + 1)

/-- `DescriptorPoolsManagerVulkan::AcquirePoolSetContainer` under the lock:
scan `_poolSets` for the first unused container; if found, mark it used, reset
it and return it; otherwise construct a new container (used, stamped with the
current frame) and append it. Returns the updated `_poolSets` and the index of
the returned container. -/
def acquirePoolSetContainer (frameCount : Nat) (poolSets : List PoolSetContainer) :
    List PoolSetContainer × Nat :=
  match findFirstUnused poolSets with
  | some k =>
    match poolSets.get? k with
    | some c => (poolSets.set k (containerReset (containerSetUsed frameCount true c)), k)
    | none => (poolSets, k)
  | none => (poolSets ++ [mkPoolSetContainer frameCount], poolSets.length)

/-- `DescriptorPoolsManagerVulkan::ReleasePoolSet`: mark the container at
index `k` free via `SetUsed(false)`. -/
def releasePoolSet (frameCount : Nat) (poolSets : List PoolSetContainer) (k : Nat) :
    List PoolSetContainer :=
  match poolSets.get? k with
  | some c => poolSets.set k (containerSetUsed frameCount false c)
  | none => poolSets

/-- The GC eligibility test of `DescriptorPoolsManagerVulkan::GC`:
`poolSet->IsUnused() && Engine::FrameCount - poolSet->GetLastFrameUsed() >
VULKAN_RESOURCE_DELETE_SAFE_FRAMES_COUNT`. Frame counters are monotone, so the
`uint64` subtraction agrees with truncated subtraction on `Nat`. `safeFrames`
stands for the constant `VULKAN_RESOURCE_DELETE_SAFE_FRAMES_COUNT`, whose
definition lives outside this file. -/
def gcEligible (safeFrames frameCount : Nat) (c : PoolSetContainer) : Bool :=
  containerIsUnused c && decide (frameCount - c.lastFrameUsed > safeFrames)

/-- Index of the last element satisfying `p`: the first hit of the
backwards-scanning `for (int32 i = Count - 1; i >= 0; i--)` loop of `GC`. -/
def findLastIdx (p : PoolSetContainer → Bool) : List PoolSetContainer → Option Nat
  | [] => none
  | c :: rest =>
    match findLastIdx p rest with
    | some j => some (j + 1)
    | none => if p c then some 0 else none

/-- `DescriptorPoolsManagerVulkan::GC` under the lock: scan `_poolSets` from
the end, remove and delete the first unused container whose stamp is older
than the safety margin, and `break` after the first removal. -/
def gc (safeFrames frameCount : Nat) (poolSets : List PoolSetContainer) :
    List PoolSetContainer :=
  match findLastIdx (gcEligible safeFrames frameCount) poolSets with
  | some i => poolSets.eraseIdx i
  | none => poolSets

/-- One call against the pools manager: `AcquirePoolSetContainer()` at a frame,
or `ReleasePoolSet(lease)` of a previously returned container index at a frame.
Both calls take the manager lock for their full duration, so an interleaving
is a sequence of atomic calls. -/
inductive ManagerOp where
  | acquire (frameCount : Nat)
  | release (frameCount : Nat) (lease : Nat)
  deriving DecidableEq, Repr

/-- Manager state plus the ghost set of outstanding leases: the indices of
containers returned by `Acquire` and not yet passed back to `Release`. -/
structure ManagerState where
  poolSets : List PoolSetContainer
  leases : List Nat
  deriving DecidableEq, Repr

/-- The manager with no registries and no outstanding leases. -/
def ManagerState.init : ManagerState :=
  { poolSets := [], leases := [] }

/-- One atomic manager call. A `release` names a lease the caller actually
holds (callers pass back a reference obtained from `Acquire`); releasing an
index that is not an outstanding lease is a no-op of the model. -/
def stepOp (s : ManagerState) : ManagerOp → ManagerState
  | .acquire f =>
    let (poolSets2, k) := acquirePoolSetContainer f s.poolSets
    { poolSets := poolSets2, leases := k :: s.leases }
  | .release f k =>
    if k ∈ s.leases then
      { poolSets := releasePoolSet f s.poolSets k, leases := s.leases.erase k }
    else s

/-- Run an interleaving of manager calls from the initial state. -/
def runOps (ops : List ManagerOp) : ManagerState :=
  ops.foldl stepOp ManagerState.init

/-- The fields of `VkPhysicalDeviceLimits` read by
`DescriptorSetLayoutVulkan::Compile`. -/
structure PhysicalDeviceLimits where
  maxDescriptorSetSamplers : Nat
  maxDescriptorSetUniformBuffers : Nat
  maxDescriptorSetUniformBuffersDynamic : Nat
  maxDescriptorSetStorageBuffers : Nat
  maxDescriptorSetStorageBuffersDynamic : Nat
  maxDescriptorSetSampledImages : Nat
  maxDescriptorSetStorageImages : Nat
  deriving DecidableEq, Repr

/-- The seven `ASSERT` conditions of `Compile`, in source order; all must hold
(each is strict `<` in the C++). -/
def compileLimitsOk (lt : Histogram) (limits : PhysicalDeviceLimits) : Bool :=
  decide (lt .sampler + lt .combinedImageSampler < limits.maxDescriptorSetSamplers) &&
  decide (lt .uniformBuffer + lt .uniformBufferDynamic < limits.maxDescriptorSetUniformBuffers) &&
  decide (lt .uniformBufferDynamic < limits.maxDescriptorSetUniformBuffersDynamic) &&
  decide (lt .storageBuffer + lt .storageBufferDynamic < limits.maxDescriptorSetStorageBuffers) &&
  decide (lt .storageBufferDynamic < limits.maxDescriptorSetStorageBuffersDynamic) &&
  decide (lt .combinedImageSampler + lt .sampledImage + lt .uniformTexelBuffer < limits.maxDescriptorSetSampledImages) &&
  decide (lt .storageImage + lt .storageTexelBuffer < limits.maxDescriptorSetStorageImages)

/-- `DescriptorSetLayoutVulkan::Compile` on a fresh layout (`_handles` empty):
first validate the histogram against the device limits — an `ASSERT` failure
is fatal and happens before the creation loop runs, so no native layout object
exists then (modelled as `none`) — and only then create one native layout
handle per group of `_setLayouts` (handles modelled by their creation index).
`groups` is the list of per-set binding lists `_setLayouts`. -/
def compile (limits : PhysicalDeviceLimits) (lt : Histogram)
    (groups : List (List DescriptorInfo)) : Option (List Nat) :=
  if compileLimitsOk lt limits then some (List.range groups.length)
  else none

/-- Where a write operation's resource pointer lands: which resource-info
cursor array, and the offset from that array's base. -/
inductive WritePtr where
  | imageInfo (offset : Nat)
  | bufferInfo (offset : Nat)
  | texelBufferView (offset : Nat)
  deriving DecidableEq, Repr

/-- One `VkWriteDescriptorSet` as filled by `SetupDescriptorWrites`: binding
index, element count, descriptor type, and the assigned resource pointer. -/
structure WriteDescriptor where
  dstBinding : Nat
  descriptorCount : Nat
  descriptorType : VkDescriptorType
  ptr : WritePtr
  deriving DecidableEq, Repr

/-- The loop of `DescriptorSetWriterVulkan::SetupDescriptorWrites`: `i` is the
binding index of the next descriptor, `img`/`buf`/`tex` the current offsets of
the three resource-info cursors, `dyn` the running `dynamicOffsetIndex`.
Returns the emitted writes, the recorded `BindingToDynamicOffset` entries (as
(binding index, slot) pairs in write order) and the final
`dynamicOffsetIndex`; a descriptor type outside the switch hits `CRASH`,
modelled as `none`. Note the dynamic-uniform-buffer case advances the buffer
cursor by one (`bufferInfo++`), while the other cases advance their cursor by
`descriptor.Count`. -/
def setupWritesLoop :
    List DescriptorInfo → Nat → Nat → Nat → Nat → Nat →
    Option (List WriteDescriptor × List (Nat × Nat) × Nat)
  | [], _, _, _, _, dyn => some ([], [], dyn)
  | d :: rest, i, img, buf, tex, dyn =>
    let mk : WritePtr → WriteDescriptor := fun p =>
      { dstBinding := i, descriptorCount := d.Count, descriptorType := d.DescriptorType,
        ptr := p }
    match d.DescriptorType with
    | .uniformBufferDynamic =>
      (setupWritesLoop rest (i + 1) img (buf + 1) tex (dyn + 1)).map
        (fun (ws, pairs, n) => (mk (.bufferInfo buf) :: ws, (i, dyn) :: pairs, n))
    | .uniformBuffer =>
      (setupWritesLoop rest (i + 1) img (buf + d.Count) tex dyn).map
        (fun (ws, pairs, n) => (mk (.bufferInfo buf) :: ws, pairs, n))
    | .storageBuffer =>
      (setupWritesLoop rest (i + 1) img (buf + d.Count) tex dyn).map
        (fun (ws, pairs, n) => (mk (.bufferInfo buf) :: ws, pairs, n))
    | .sampler =>
      (setupWritesLoop rest (i + 1) (img + d.Count) buf tex dyn).map
        (fun (ws, pairs, n) => (mk (.imageInfo img) :: ws, pairs, n))
    | .combinedImageSampler =>
      (setupWritesLoop rest (i + 1) (img + d.Count) buf tex dyn).map
        (fun (ws, pairs, n) => (mk (.imageInfo img) :: ws, pairs, n))
    | .sampledImage =>
      (setupWritesLoop rest (i + 1) (img + d.Count) buf tex dyn).map
        (fun (ws, pairs, n) => (mk (.imageInfo img) :: ws, pairs, n))
    | .storageImage =>
      (setupWritesLoop rest (i + 1) (img + d.Count) buf tex dyn).map
        (fun (ws, pairs, n) => (mk (.imageInfo img) :: ws, pairs, n))
    | .storageTexelBuffer =>
      (setupWritesLoop rest (i + 1) img buf (tex + d.Count) dyn).map
        (fun (ws, pairs, n) => (mk (.texelBufferView tex) :: ws, pairs, n))
    | .uniformTexelBuffer =>
      (setupWritesLoop rest (i + 1) img buf (tex + d.Count) dyn).map
        (fun (ws, pairs, n) => (mk (.texelBufferView tex) :: ws, pairs, n))
    | _ => none

/-- `DescriptorSetWriterVulkan::SetupDescriptorWrites`: process the descriptor
list with all cursors at their array bases and `dynamicOffsetIndex = 0`. -/
def setupDescriptorWrites (info : List DescriptorInfo) :
    Option (List WriteDescriptor × List (Nat × Nat) × Nat) :=
  setupWritesLoop info 0 0 0 0 0

/-- Number of bindings whose descriptor type carries a dynamic offset
(`VK_DESCRIPTOR_TYPE_UNIFORM_BUFFER_DYNAMIC`, the one dynamic-offset type the
write-setup switch handles). -/
def countDyn : List DescriptorInfo → Nat
  | [] => 0
  | d :: rest =>
    (if d.DescriptorType = .uniformBufferDynamic then 1 else 0) + countDyn rest

/-- Binding indices (starting at `i`) of the dynamic-offset bindings, in
declaration order. -/
def dynPositions : Nat → List DescriptorInfo → List Nat
  | _, [] => []
  | i, d :: rest =>
    if d.DescriptorType = .uniformBufferDynamic then i :: dynPositions (i + 1) rest
    else dynPositions (i + 1) rest

/-- The three resource-info cursor arrays of `SetupDescriptorWrites`. -/
inductive CursorKind where
  | image
  | buffer
  | texel
  deriving DecidableEq, Repr

/-- Which cursor array the switch routes a descriptor type to, following its
case labels: image info for sampler/image types, buffer info for buffer types
(dynamic uniform buffers included), texel views for texel-buffer types; `none`
for the `CRASH` default. -/
def cursorOf : VkDescriptorType → Option CursorKind
  | .uniformBufferDynamic => some .buffer
  | .uniformBuffer => some .buffer
  | .storageBuffer => some .buffer
  | .sampler => some .image
  | .combinedImageSampler => some .image
  | .sampledImage => some .image
  | .storageImage => some .image
  | .storageTexelBuffer => some .texel
  | .uniformTexelBuffer => some .texel
  | _ => none

/-- Build the pointer for a cursor kind at an offset. -/
def ptrOf : CursorKind → Nat → WritePtr
  | .image, off => .imageInfo off
  | .buffer, off => .bufferInfo off
  | .texel, off => .texelBufferView off

/-- How far the code actually advances a binding's cursor: one slot for a
dynamic uniform buffer (`bufferInfo++`), the element count otherwise. -/
def cursorAdvance (d : DescriptorInfo) : Nat :=
  if d.DescriptorType = .uniformBufferDynamic then 1 else d.Count

/-- Total cursor advance contributed to cursor `ck` by a prefix of bindings,
per the code (`cursorAdvance`). -/
def advanceSum (ck : CursorKind) : List DescriptorInfo → Nat
  | [] => 0
  | d :: rest =>
    (if cursorOf d.DescriptorType = some ck then cursorAdvance d else 0) +
      advanceSum ck rest

/-- Follows the claim's words (the refinement reference, not the code): the
cursor offset of a write as "the sum of the element counts of all earlier
bindings routed to the same cursor". -/
def countSum (ck : CursorKind) : List DescriptorInfo → Nat
  | [] => 0
  | d :: rest =>
    (if cursorOf d.DescriptorType = some ck then d.Count else 0) + countSum ck rest

/-- The base offset of a cursor among the three cursor positions. -/
def cursorBase (ck : CursorKind) (img buf tex : Nat) : Nat :=
  match ck with
  | .image => img
  | .buffer => buf
  | .texel => tex

/-! ### Helper lemmas -/

theorem findLastIdx_none (p : PoolSetContainer → Bool) (l : List PoolSetContainer)
    (h : findLastIdx p l = none) : ∀ c ∈ l, p c = false := by
  induction l with
  | nil => intro c hc; cases hc
  | cons a l ih =>
    intro c hc
    simp only [findLastIdx] at h
    cases hfl : findLastIdx p l with
    | some j => rw [hfl] at h; cases h
    | none =>
      rw [hfl] at h
      rcases List.mem_cons.mp hc with hc | hc
      · subst hc
        by_cases hp : p c = true
        · rw [if_pos hp] at h; cases h
        · exact Bool.eq_false_iff.mpr hp
      · exact ih hfl c hc

theorem findLastIdx_all_false (p : PoolSetContainer → Bool) (l : List PoolSetContainer)
    (h : ∀ c ∈ l, p c = false) : findLastIdx p l = none := by
  induction l with
  | nil => rfl
  | cons a l ih =>
    simp only [findLastIdx]
    rw [ih (fun c hc => h c (List.mem_cons_of_mem a hc))]
    rw [h a (List.mem_cons_self a l)]
    rfl

theorem findLastIdx_last (p : PoolSetContainer → Bool) (l : List PoolSetContainer)
    (i : Nat) (c : PoolSetContainer) (hget : l.get? i = some c) (hp : p c = true)
    (hlast : ∀ j c2, i < j → l.get? j = some c2 → p c2 = false) :
    findLastIdx p l = some i := by
  induction l generalizing i with
  | nil => cases hget
  | cons a l ih =>
    simp only [findLastIdx]
    cases i with
    | zero =>
      rw [List.get?_cons_zero] at hget
      injection hget with hget; subst hget
      have hnone : findLastIdx p l = none := by
        apply findLastIdx_all_false
        intro c2 hc2
        obtain ⟨j, hj⟩ := List.get?_of_mem hc2
        exact hlast (j + 1) c2 (Nat.succ_pos j) (by rw [List.get?_cons_succ]; exact hj)
      rw [hnone, if_pos hp]
    | succ i =>
      rw [List.get?_cons_succ] at hget
      have h2 : findLastIdx p l = some i := by
        apply ih i hget
        intro j c2 hij hj
        exact hlast (j + 1) c2 (Nat.succ_lt_succ hij) (by rw [List.get?_cons_succ]; exact hj)
      rw [h2]

theorem findFirstUnused_all_used (l : List PoolSetContainer)
    (h : ∀ c ∈ l, c.used = true) : findFirstUnused l = none := by
  induction l with
  | nil => rfl
  | cons a l ih =>
    simp only [findFirstUnused, containerIsUnused,
      h a (List.mem_cons_self a l), Bool.not_true, Bool.false_eq_true, if_false]
    rw [ih (fun c hc => h c (List.mem_cons_of_mem a hc))]
    rfl

theorem findFirstUnused_first (l : List PoolSetContainer) (k : Nat) (c : PoolSetContainer)
    (hget : l.get? k = some c) (hc : c.used = false)
    (hfirst : ∀ j c2, j < k → l.get? j = some c2 → c2.used = true) :
    findFirstUnused l = some k := by
  induction l generalizing k with
  | nil => cases hget
  | cons a l ih =>
    simp only [findFirstUnused, containerIsUnused]
    cases k with
    | zero =>
      rw [List.get?_cons_zero] at hget
      injection hget with hget; subst hget
      simp only [hc, Bool.not_false, if_true]
    | succ k =>
      rw [List.get?_cons_succ] at hget
      have ha : a.used = true :=
        hfirst 0 a (Nat.succ_pos k) (List.get?_cons_zero)
      simp only [ha, Bool.not_true, Bool.false_eq_true, if_false]
      have h2 : findFirstUnused l = some k := by
        apply ih k hget
        intro j c2 hj hgj
        exact hfirst (j + 1) c2 (Nat.succ_lt_succ hj) (by rw [List.get?_cons_succ]; exact hgj)
      rw [h2]
      rfl

theorem findLastIdx_some (p : PoolSetContainer → Bool) (l : List PoolSetContainer)
    (i : Nat) (h : findLastIdx p l = some i) :
    ∃ c, l.get? i = some c ∧ p c = true := by
  induction l generalizing i with
  | nil => cases h
  | cons a l ih =>
    simp only [findLastIdx] at h
    cases hfl : findLastIdx p l with
    | some j =>
      rw [hfl] at h
      injection h with h; subst h
      obtain ⟨c, hc, hp⟩ := ih j hfl
      exact ⟨c, by rw [List.get?_cons_succ]; exact hc, hp⟩
    | none =>
      rw [hfl] at h
      by_cases hp : p a = true
      · rw [if_pos hp] at h
        injection h with h; subst h
        exact ⟨a, List.get?_cons_zero, hp⟩
      · rw [if_neg hp] at h; cases h

theorem count_eraseIdx_of_ne (l : List PoolSetContainer) (i : Nat)
    (c x : PoolSetContainer) (hget : l.get? i = some c) (hne : c ≠ x) :
    (l.eraseIdx i).count x = l.count x := by
  induction l generalizing i with
  | nil => cases hget
  | cons a l ih =>
    cases i with
    | zero =>
      rw [List.get?_cons_zero] at hget
      have ha : a = c := Option.some.inj hget
      have hax : (a == x) = false := by
        simp only [beq_eq_false_iff_ne, ne_eq, ha]
        exact hne
      simp [List.eraseIdx_cons_zero, List.count_cons, hax]
    | succ i =>
      rw [List.get?_cons_succ] at hget
      simp only [List.eraseIdx_cons_succ, List.count_cons, ih i hget]

theorem gc_eq_eraseIdx (safeFrames frameCount : Nat) (poolSets : List PoolSetContainer)
    (i : Nat) (h : findLastIdx (gcEligible safeFrames frameCount) poolSets = some i) :
    gc safeFrames frameCount poolSets = poolSets.eraseIdx i := by
  unfold gc; rw [h]

theorem gc_eq_self (safeFrames frameCount : Nat) (poolSets : List PoolSetContainer)
    (h : findLastIdx (gcEligible safeFrames frameCount) poolSets = none) :
    gc safeFrames frameCount poolSets = poolSets := by
  unfold gc; rw [h]

/-- C1: `GC()` never destroys a registry that is leased or whose recorded
frame stamp is within the safety margin of the current frame counter (any
ineligible registry keeps its multiplicity in the list); each call removes at
most one registry; when no registry is eligible the list is unchanged; and
when an eligible registry exists, the one at the largest eligible index — the
first hit of the backwards scan — is removed, exactly one. -/
theorem gc_correct (safeFrames frameCount : Nat) (poolSets : List PoolSetContainer) :
    ((gc safeFrames frameCount poolSets).length + 1 = poolSets.length ∨
      gc safeFrames frameCount poolSets = poolSets) ∧
    (∀ x : PoolSetContainer, gcEligible safeFrames frameCount x = false →
      (gc safeFrames frameCount poolSets).count x = poolSets.count x) ∧
    ((∀ c ∈ poolSets, gcEligible safeFrames frameCount c = false) →
      gc safeFrames frameCount poolSets = poolSets) ∧
    (∀ i c, poolSets.get? i = some c →
      gcEligible safeFrames frameCount c = true →
      (∀ j c2, i < j → poolSets.get? j = some c2 →
        gcEligible safeFrames frameCount c2 = false) →
      gc safeFrames frameCount poolSets = poolSets.eraseIdx i ∧
      (gc safeFrames frameCount poolSets).length + 1 = poolSets.length) := by
  refine ⟨?_, ?_, ?_, ?_⟩
  · cases hfl : findLastIdx (gcEligible safeFrames frameCount) poolSets with
    | none => exact Or.inr (gc_eq_self _ _ _ hfl)
    | some i =>
      obtain ⟨c, hget, _⟩ := findLastIdx_some _ _ _ hfl
      have hlen : i < poolSets.length := (List.get?_eq_some.mp hget).1
      left
      rw [gc_eq_eraseIdx _ _ _ _ hfl, List.length_eraseIdx, if_pos hlen]
      omega
  · intro x hx
    cases hfl : findLastIdx (gcEligible safeFrames frameCount) poolSets with
    | none => rw [gc_eq_self _ _ _ hfl]
    | some i =>
      obtain ⟨c, hget, hp⟩ := findLastIdx_some _ _ _ hfl
      rw [gc_eq_eraseIdx _ _ _ _ hfl]
      exact count_eraseIdx_of_ne _ _ _ _ hget (fun h => by rw [h, hx] at hp; cases hp)
  · intro hall
    exact gc_eq_self _ _ _ (findLastIdx_all_false _ _ hall)
  · intro i c hget hp hlast
    have hfl : findLastIdx (gcEligible safeFrames frameCount) poolSets = some i := by
      apply findLastIdx_last _ _ _ _ hget hp
      intro j c2 hij hj
      exact hlast j c2 hij hj
    have hlen : i < poolSets.length := (List.get?_eq_some.mp hget).1
    refine ⟨gc_eq_eraseIdx _ _ _ _ hfl, ?_⟩
    rw [gc_eq_eraseIdx _ _ _ _ hfl, List.length_eraseIdx, if_pos hlen]
    omega

/-- Witness for `gc_correct`: on a concrete registry list with margin 3 at
frame 10, the in-margin registry is preserved and the stale free registry at
index 1 is the one removed. -/
theorem gc_correct_witness :
    gc 3 10 [⟨true, 0, []⟩, ⟨false, 2, []⟩, ⟨false, 9, []⟩] =
      [⟨true, 0, []⟩, ⟨false, 9, []⟩] ∧
    gc 3 10 [⟨true, 0, []⟩, ⟨false, 8, []⟩] = [⟨true, 0, []⟩, ⟨false, 8, []⟩] := by
  constructor
  · have h := (gc_correct 3 10 [⟨true, 0, []⟩, ⟨false, 2, []⟩, ⟨false, 9, []⟩]).2.2.2
      1 ⟨false, 2, []⟩ rfl (by decide)
      (by
        intro j c2 hj hg
        match j, hj with
        | 2, _ =>
          rw [show c2 = ⟨false, 9, []⟩ from by cases hg; rfl]
          decide
        | j + 3, _ => cases hg)
    exact h.1
  · exact (gc_correct 3 10 [⟨true, 0, []⟩, ⟨false, 8, []⟩]).2.2.1 (by decide)

/-- C7 counterexample: releasing (`SetUsed(false)`) a registry last stamped at
frame 5 while the current frame counter is 10 leaves the recorded stamp at 5;
the claim says the current frame 10 would be recorded as the frame at which
the registry became free. -/
theorem setUsed_counterexample :
    (containerSetUsed 10 false ⟨true, 5, []⟩).lastFrameUsed = 5 ∧ (5 : Nat) ≠ 10 := by
  exact ⟨rfl, by decide⟩

/-- C7 (amended): `SetUsed(flag)` sets the used flag to the given value and,
when the flag marks the registry used (`flag = true`), records the current
frame counter into `_lastFrameUsed`; when the flag marks it free the stamp is
left unchanged. The owned pools are untouched either way. -/
theorem setUsed_spec (frameCount : Nat) (used : Bool) (c : PoolSetContainer) :
    (containerSetUsed frameCount used c).used = used ∧
    (containerSetUsed frameCount used c).lastFrameUsed =
      (if used then frameCount else c.lastFrameUsed) ∧
    (containerSetUsed frameCount used c).typedPools = c.typedPools :=
  ⟨rfl, rfl, rfl⟩

/-- C4: compiling a layout whose histogram total exceeds any one of the seven
device per-category limits hits the fatal assertion before any native layout
handle exists; when every category total passes the validation (each strictly
below its limit, as the `ASSERT`s check) no assertion fires and exactly one
native layout handle is created per group of `_setLayouts`. -/
theorem compile_limit_check (limits : PhysicalDeviceLimits) (lt : Histogram)
    (groups : List (List DescriptorInfo)) :
    ((lt .sampler + lt .combinedImageSampler > limits.maxDescriptorSetSamplers ∨
      lt .uniformBuffer + lt .uniformBufferDynamic > limits.maxDescriptorSetUniformBuffers ∨
      lt .uniformBufferDynamic > limits.maxDescriptorSetUniformBuffersDynamic ∨
      lt .storageBuffer + lt .storageBufferDynamic > limits.maxDescriptorSetStorageBuffers ∨
      lt .storageBufferDynamic > limits.maxDescriptorSetStorageBuffersDynamic ∨
      lt .combinedImageSampler + lt .sampledImage + lt .uniformTexelBuffer >
        limits.maxDescriptorSetSampledImages ∨
      lt .storageImage + lt .storageTexelBuffer > limits.maxDescriptorSetStorageImages) →
      compile limits lt groups = none) ∧
    ((lt .sampler + lt .combinedImageSampler < limits.maxDescriptorSetSamplers ∧
      lt .uniformBuffer + lt .uniformBufferDynamic < limits.maxDescriptorSetUniformBuffers ∧
      lt .uniformBufferDynamic < limits.maxDescriptorSetUniformBuffersDynamic ∧
      lt .storageBuffer + lt .storageBufferDynamic < limits.maxDescriptorSetStorageBuffers ∧
      lt .storageBufferDynamic < limits.maxDescriptorSetStorageBuffersDynamic ∧
      lt .combinedImageSampler + lt .sampledImage + lt .uniformTexelBuffer <
        limits.maxDescriptorSetSampledImages ∧
      lt .storageImage + lt .storageTexelBuffer < limits.maxDescriptorSetStorageImages) →
      compile limits lt groups = some (List.range groups.length) ∧
      (List.range groups.length).length = groups.length) := by
  constructor
  · intro hexceeds
    have hfail : compileLimitsOk lt limits = false := by
      unfold compileLimitsOk
      simp only [Bool.and_eq_false_iff, decide_eq_false_iff_not, not_lt]
      rcases hexceeds with h | h | h | h | h | h | h <;> simp [Nat.le_of_lt h]
    unfold compile
    rw [hfail]
    rfl
  · intro hok
    have hpass : compileLimitsOk lt limits = true := by
      unfold compileLimitsOk
      simp only [Bool.and_eq_true, decide_eq_true_eq]
      tauto
    refine ⟨?_, List.length_range _⟩
    unfold compile
    rw [hpass]
    rfl

/-- Witness for `compile_limit_check`: a histogram of ten samplers against a
device limit of five is rejected with no handle created, while the empty
histogram against the same limits compiles one handle for one group. -/
theorem compile_limit_check_witness :
    compile ⟨5, 5, 5, 5, 5, 5, 5⟩
      (fun t => if t = .sampler then 10 else 0) [[]] = none ∧
    compile ⟨5, 5, 5, 5, 5, 5, 5⟩ (fun _ => 0) [[]] = some [0] := by
  constructor
  · exact (compile_limit_check ⟨5, 5, 5, 5, 5, 5, 5⟩
      (fun t => if t = .sampler then 10 else 0) [[]]).1 (Or.inl (by decide))
  · have h := (compile_limit_check ⟨5, 5, 5, 5, 5, 5, 5⟩ (fun _ => 0) [[]]).2
      (by norm_num)
    exact h.1

theorem setupWritesLoop_crash (info : List DescriptorInfo)
    (h : ∃ d ∈ info, d.DescriptorType = .storageBufferDynamic) :
    ∀ i img buf tex dyn, setupWritesLoop info i img buf tex dyn = none := by
  induction info with
  | nil => obtain ⟨d, hd, _⟩ := h; cases hd
  | cons d0 rest ih =>
    intro i img buf tex dyn
    obtain ⟨d, hd, hdt⟩ := h
    rcases List.mem_cons.mp hd with heq | hd2
    · subst heq
      obtain ⟨t, cnt⟩ := d
      simp only at hdt
      subst hdt
      rfl
    · have H : ∀ a b c e f, setupWritesLoop rest a b c e f = none :=
        fun a b c e f => ih ⟨d, hd2, hdt⟩ a b c e f
      obtain ⟨t, cnt⟩ := d0
      cases t <;> simp [setupWritesLoop, H]

/-- C9: `VK_DESCRIPTOR_TYPE_STORAGE_BUFFER_DYNAMIC` — a category `Compile`
explicitly validates against `maxDescriptorSetStorageBuffersDynamic` — is
outside the set of types handled by the `SetupDescriptorWrites` switch: any
binding metadata containing one falls through to the fatal `CRASH` branch, and
a dynamic-storage-buffer count past its device limit likewise fails the
compile validation. -/
theorem setupWrites_crash_on_dynamic_storage :
    (∀ info : List DescriptorInfo,
      (∃ d ∈ info, d.DescriptorType = .storageBufferDynamic) →
      setupDescriptorWrites info = none) ∧
    (∀ (limits : PhysicalDeviceLimits) (lt : Histogram)
      (groups : List (List DescriptorInfo)),
      lt .storageBufferDynamic ≥ limits.maxDescriptorSetStorageBuffersDynamic →
      compile limits lt groups = none) := by
  constructor
  · intro info h
    exact setupWritesLoop_crash info h 0 0 0 0 0
  · intro limits lt groups h
    have hfail : compileLimitsOk lt limits = false := by
      unfold compileLimitsOk
      simp only [Bool.and_eq_false_iff, decide_eq_false_iff_not, not_lt]
      tauto
    unfold compile
    rw [hfail]
    rfl

/-- Witness for `setupWrites_crash_on_dynamic_storage`: a single
dynamic-storage-buffer binding makes `SetupDescriptorWrites` crash, and one
such descriptor against a zero device limit fails compilation. -/
theorem setupWrites_crash_on_dynamic_storage_witness :
    setupDescriptorWrites [⟨.storageBufferDynamic, 1⟩] = none ∧
    compile ⟨5, 5, 5, 5, 0, 5, 5⟩
      (fun t => if t = .storageBufferDynamic then 1 else 0) [[]] = none := by
  constructor
  · exact setupWrites_crash_on_dynamic_storage.1 [⟨.storageBufferDynamic, 1⟩]
      ⟨⟨.storageBufferDynamic, 1⟩, List.mem_singleton.mpr rfl, rfl⟩
  · exact setupWrites_crash_on_dynamic_storage.2 ⟨5, 5, 5, 5, 0, 5, 5⟩
      (fun t => if t = .storageBufferDynamic then 1 else 0) [[]] (by decide)

theorem findFirstUnused_some (l : List PoolSetContainer) (k : Nat)
    (h : findFirstUnused l = some k) : ∃ c, l.get? k = some c ∧ c.used = false := by
  induction l generalizing k with
  | nil => cases h
  | cons a l ih =>
    simp only [findFirstUnused, containerIsUnused] at h
    by_cases ha : a.used = true
    · simp only [ha, Bool.not_true, Bool.false_eq_true, if_false] at h
      cases hfl : findFirstUnused l with
      | none => rw [hfl] at h; cases h
      | some j =>
        rw [hfl] at h
        injection h with h; subst h
        obtain ⟨c, hc, hcu⟩ := ih j hfl
        exact ⟨c, by rw [List.get?_cons_succ]; exact hc, hcu⟩
    · have ha2 : a.used = false := Bool.eq_false_iff.mpr ha
      simp only [ha2, Bool.not_false, if_true] at h
      injection h with h; subst h
      exact ⟨a, List.get?_cons_zero, ha2⟩

/-- C10: when every registry is in use, `Acquire()` appends a freshly
constructed registry — which the constructor already marks used, stamps with
the current frame counter, and which owns no pools — and returns it without
calling `Reset()` on it or touching any existing registry; `Reset()` is
applied only on the reuse path, where the first free registry is marked used,
reset, and returned. -/
theorem acquire_reset_only_on_reuse (frameCount : Nat)
    (poolSets : List PoolSetContainer) :
    ((∀ c ∈ poolSets, c.used = true) →
      acquirePoolSetContainer frameCount poolSets =
        (poolSets ++ [mkPoolSetContainer frameCount], poolSets.length) ∧
      (mkPoolSetContainer frameCount).used = true ∧
      (mkPoolSetContainer frameCount).lastFrameUsed = frameCount ∧
      (mkPoolSetContainer frameCount).typedPools = []) ∧
    (∀ k c, poolSets.get? k = some c → c.used = false →
      (∀ j c2, j < k → poolSets.get? j = some c2 → c2.used = true) →
      acquirePoolSetContainer frameCount poolSets =
        (poolSets.set k (containerReset (containerSetUsed frameCount true c)), k)) := by
  constructor
  · intro hall
    refine ⟨?_, rfl, rfl, rfl⟩
    unfold acquirePoolSetContainer
    rw [findFirstUnused_all_used _ hall]
  · intro k c hget hused hfirst
    unfold acquirePoolSetContainer
    simp only [findFirstUnused_first _ _ _ hget hused hfirst, hget]

/-- Witness for `acquire_reset_only_on_reuse`: with a single in-use registry a
brand-new stamped registry is appended; with a free registry at index 1, that
registry is marked used, reset and returned. -/
theorem acquire_reset_only_on_reuse_witness :
    acquirePoolSetContainer 7 [⟨true, 0, []⟩] =
      ([⟨true, 0, []⟩, ⟨true, 7, []⟩], 1) ∧
    acquirePoolSetContainer 7 [⟨true, 0, []⟩, ⟨false, 2, [⟨[⟨5, 9⟩], 1⟩]⟩] =
      ([⟨true, 0, []⟩, ⟨true, 7, [⟨[⟨0, 9⟩], 0⟩]⟩], 1) := by
  constructor
  · exact ((acquire_reset_only_on_reuse 7 [⟨true, 0, []⟩]).1 (by decide)).1
  · have h := (acquire_reset_only_on_reuse 7
      [⟨true, 0, []⟩, ⟨false, 2, [⟨[⟨5, 9⟩], 1⟩]⟩]).2 1 ⟨false, 2, [⟨[⟨5, 9⟩], 1⟩]⟩
      rfl rfl
      (by
        intro j c2 hj hg
        match j, hj with
        | 0, _ =>
          rw [show c2 = ⟨true, 0, []⟩ from by cases hg; rfl])
    rw [h]
    rfl

/-- The mutual-exclusion invariant of the pools manager: outstanding leases
are pairwise distinct registry indices, and every leased registry exists and
is marked used. -/
def leaseInv (s : ManagerState) : Prop :=
  s.leases.Nodup ∧
  ∀ k ∈ s.leases, ∃ c, s.poolSets.get? k = some c ∧ c.used = true

theorem leaseInv_init : leaseInv ManagerState.init :=
  ⟨List.nodup_nil, fun k hk => absurd hk (List.not_mem_nil k)⟩

theorem leaseInv_step (s : ManagerState) (op : ManagerOp) (h : leaseInv s) :
    leaseInv (stepOp s op) := by
  obtain ⟨hnd, hmem⟩ := h
  cases op with
  | acquire f =>
    cases hf : findFirstUnused s.poolSets with
    | some k0 =>
      obtain ⟨c, hget, hcu⟩ := findFirstUnused_some _ _ hf
      have hk0len : k0 < s.poolSets.length := (List.get?_eq_some.mp hget).1
      have hk0free : k0 ∉ s.leases := by
        intro hk0
        obtain ⟨c2, hget2, hcu2⟩ := hmem k0 hk0
        rw [hget] at hget2
        injection hget2 with hget2
        rw [← hget2, hcu] at hcu2
        cases hcu2
      have hstep : stepOp s (.acquire f) =
          { poolSets := s.poolSets.set k0
              (containerReset (containerSetUsed f true c)),
            leases := k0 :: s.leases } := by
        simp only [stepOp, acquirePoolSetContainer, hf, hget]
      rw [hstep]
      constructor
      · exact List.nodup_cons.mpr ⟨hk0free, hnd⟩
      · intro k hk
        rcases List.mem_cons.mp hk with rfl | hk2
        · refine ⟨containerReset (containerSetUsed f true c), ?_, rfl⟩
          rw [List.get?_set, if_pos rfl, hget]
          rfl
        · obtain ⟨c2, hget2, hcu2⟩ := hmem k hk2
          refine ⟨c2, ?_, hcu2⟩
          have hne : k0 ≠ k := fun he => hk0free (he ▸ hk2)
          rw [List.get?_set, if_neg hne]
          exact hget2
    | none =>
      have hstep : stepOp s (.acquire f) =
          { poolSets := s.poolSets ++ [mkPoolSetContainer f],
            leases := s.poolSets.length :: s.leases } := by
        simp only [stepOp, acquirePoolSetContainer, hf]
      rw [hstep]
      have hlenfree : s.poolSets.length ∉ s.leases := by
        intro hk
        obtain ⟨c2, hget2, _⟩ := hmem _ hk
        have := (List.get?_eq_some.mp hget2).1
        omega
      constructor
      · exact List.nodup_cons.mpr ⟨hlenfree, hnd⟩
      · intro k hk
        rcases List.mem_cons.mp hk with rfl | hk2
        · exact ⟨mkPoolSetContainer f, List.get?_concat_length _ _, rfl⟩
        · obtain ⟨c2, hget2, hcu2⟩ := hmem k hk2
          have hklen : k < s.poolSets.length := (List.get?_eq_some.mp hget2).1
          exact ⟨c2, by rw [List.get?_append hklen]; exact hget2, hcu2⟩
  | release f k =>
    by_cases hk : k ∈ s.leases
    · obtain ⟨c, hget, _⟩ := hmem k hk
      have hstep : stepOp s (.release f k) =
          { poolSets := s.poolSets.set k (containerSetUsed f false c),
            leases := s.leases.erase k } := by
        simp only [stepOp, hk, if_true, releasePoolSet, hget]
      rw [hstep]
      constructor
      · exact hnd.erase k
      · intro k2 hk2
        obtain ⟨hne, hk2mem⟩ := (hnd.mem_erase_iff).mp hk2
        obtain ⟨c2, hget2, hcu2⟩ := hmem k2 hk2mem
        refine ⟨c2, ?_, hcu2⟩
        rw [List.get?_set, if_neg (show k ≠ k2 from fun he => hne he.symm)]
        exact hget2
    · have hstep : stepOp s (.release f k) = s := by
        simp only [stepOp, hk, if_false]
      rw [hstep]
      exact ⟨hnd, hmem⟩

theorem leaseInv_runOps_aux (s : ManagerState) (ops : List ManagerOp)
    (h : leaseInv s) : leaseInv (ops.foldl stepOp s) := by
  induction ops generalizing s with
  | nil => exact h
  | cons op ops ih => exact ih _ (leaseInv_step s op h)

/-- C2: for every interleaving of `Acquire()` and `Release()` calls against
the manager, no two concurrently outstanding leases reference the same
registry: the outstanding lease indices are pairwise distinct, and every
leased registry is present in the list and marked used (so an `Acquire` can
hand out only a registry freed by a prior `Release`, or a brand-new one). -/
theorem acquire_mutual_exclusion (ops : List ManagerOp) :
    (runOps ops).leases.Nodup ∧
    ∀ k ∈ (runOps ops).leases,
      ∃ c, (runOps ops).poolSets.get? k = some c ∧ c.used = true :=
  leaseInv_runOps_aux ManagerState.init ops leaseInv_init

/-- Witness for `acquire_mutual_exclusion`: two back-to-back acquires hold two
distinct leases, and lease 0 names a registry marked used. -/
theorem acquire_mutual_exclusion_witness :
    (runOps [.acquire 1, .acquire 2]).leases.Nodup ∧
    ∃ c, (runOps [.acquire 1, .acquire 2]).poolSets.get? 0 = some c ∧
      c.used = true :=
  ⟨(acquire_mutual_exclusion [.acquire 1, .acquire 2]).1,
   (acquire_mutual_exclusion [.acquire 1, .acquire 2]).2 0 (by decide)⟩

theorem runAllocs_first_pool (newCap : Nat) (ns : List Nat) (a cap : Nat)
    (restZ : List DescriptorPool) (h : a + ns.sum ≤ cap) :
    runAllocs newCap ns ⟨⟨a, cap⟩ :: restZ, 0⟩ =
      some ⟨⟨a + ns.sum, cap⟩ :: restZ, 0⟩ := by
  induction ns generalizing a with
  | nil => simp [runAllocs]
  | cons n ns ih =>
    rw [List.sum_cons] at h
    by_cases hn : n = 0
    · subst hn
      have hstep : tpsAllocate newCap 0 ⟨⟨a, cap⟩ :: restZ, 0⟩ =
          some ⟨⟨a, cap⟩ :: restZ, 0⟩ := by
        simp [tpsAllocate]
      have : runAllocs newCap (0 :: ns) ⟨⟨a, cap⟩ :: restZ, 0⟩ =
          runAllocs newCap ns ⟨⟨a, cap⟩ :: restZ, 0⟩ := by
        simp [runAllocs, hstep]
      rw [this, ih a (by omega)]
      simp [List.sum_cons]
    · have hfit : a + n ≤ cap := by omega
      have hstep : tpsAllocate newCap n ⟨⟨a, cap⟩ :: restZ, 0⟩ =
          some ⟨⟨a + n, cap⟩ :: restZ, 0⟩ := by
        simp only [tpsAllocate, if_neg hn, List.take_zero, List.drop_zero,
          tpsAllocLoop, poolAllocate, if_pos hfit]
        rfl
      have hfold : runAllocs newCap (n :: ns) ⟨⟨a, cap⟩ :: restZ, 0⟩ =
          runAllocs newCap ns ⟨⟨a + n, cap⟩ :: restZ, 0⟩ := by
        simp [runAllocs, hstep]
      rw [hfold, ih (a + n) (by omega)]
      have : a + n + ns.sum = a + (n + ns.sum) := by omega
      rw [this, List.sum_cons]

/-- C8: after `Reset()`, every pool in the chain is back at zero allocations
and the cursor is rewound to the head, so any subsequent run of allocations
whose total does not exceed the first pool's capacity is served entirely from
the first pool: every allocation succeeds, the first pool accumulates the
total, the remaining pools stay empty, the cursor stays at the head, and no
new pool is created. -/
theorem reset_reuses_first_pool (newCap : Nat) (ns : List Nat)
    (p0 : DescriptorPool) (rest : List DescriptorPool) (cur : Nat)
    (h : ns.sum ≤ p0.capacity) :
    runAllocs newCap ns (tpsReset ⟨p0 :: rest, cur⟩) =
      some ⟨{ allocated := ns.sum, capacity := p0.capacity } :: rest.map poolReset, 0⟩ := by
  have hreset : tpsReset ⟨p0 :: rest, cur⟩ =
      ⟨⟨0, p0.capacity⟩ :: rest.map poolReset, 0⟩ := by
    simp [tpsReset, poolReset]
  rw [hreset]
  have := runAllocs_first_pool newCap ns 0 p0.capacity (rest.map poolReset) (by omega)
  simpa using this

/-- Witness for `reset_reuses_first_pool`: a reset two-pool chain of capacity
10 serves allocations of 2 and 3 sets from its first pool without growing. -/
theorem reset_reuses_first_pool_witness :
    runAllocs 256 [2, 3] (tpsReset ⟨[⟨7, 10⟩, ⟨4, 10⟩], 1⟩) =
      some ⟨[⟨5, 10⟩, ⟨0, 10⟩], 0⟩ := by
  have h := reset_reuses_first_pool 256 [2, 3] ⟨7, 10⟩ [⟨4, 10⟩] 1 (by decide)
  rw [h]
  rfl

theorem lookupHash_cacheTypesUsageID (lt : Histogram) (c : TypesUsageCache) :
    lookupHash (cacheTypesUsageID lt c).2.typesUsageHashMap
      (memCrc32 (layoutTypesList lt)) = some (cacheTypesUsageID lt c).1 := by
  unfold cacheTypesUsageID
  cases hl : lookupHash c.typesUsageHashMap (memCrc32 (layoutTypesList lt)) with
  | some id => simp [hl]
  | none => simp [hl, lookupHash]

theorem lookupHash_mono_call (lt : Histogram) (c : TypesUsageCache) (k v : Nat)
    (h : lookupHash c.typesUsageHashMap k = some v) :
    lookupHash (cacheTypesUsageID lt c).2.typesUsageHashMap k = some v := by
  unfold cacheTypesUsageID
  cases hl : lookupHash c.typesUsageHashMap (memCrc32 (layoutTypesList lt)) with
  | some id => simpa [hl] using h
  | none =>
    have hne : memCrc32 (layoutTypesList lt) ≠ k := by
      intro he
      rw [he, h] at hl
      cases hl
    simp only [hl, lookupHash]
    rw [if_neg hne]
    exact h

theorem lookupHash_mono_run (hs : List Histogram) (c : TypesUsageCache) (k v : Nat)
    (h : lookupHash c.typesUsageHashMap k = some v) :
    lookupHash (runUsageCalls c hs).2.typesUsageHashMap k = some v := by
  induction hs generalizing c with
  | nil => exact h
  | cons lt rest ih => exact ih _ (lookupHash_mono_call lt c k v h)

theorem runUsageCalls_get (c : TypesUsageCache) (hs : List Histogram) (i : Nat)
    (lt : Histogram) (hget : hs.get? i = some lt) :
    ∃ id, (runUsageCalls c hs).1.get? i = some id ∧
      lookupHash (runUsageCalls c hs).2.typesUsageHashMap
        (memCrc32 (layoutTypesList lt)) = some id := by
  induction hs generalizing c i with
  | nil => cases hget
  | cons lt0 rest ih =>
    cases i with
    | zero =>
      rw [List.get?_cons_zero] at hget
      have : lt0 = lt := Option.some.inj hget
      subst this
      refine ⟨(cacheTypesUsageID lt0 c).1, rfl, ?_⟩
      exact lookupHash_mono_run rest _ _ _ (lookupHash_cacheTypesUsageID lt0 c)
    | succ i =>
      rw [List.get?_cons_succ] at hget
      obtain ⟨id, hid, hlook⟩ := ih (cacheTypesUsageID lt0 c).2 i hget
      exact ⟨id, hid, hlook⟩

/-- C3: in any sequence of `CacheTypesUsageID` calls against the shared
process-wide cache, any two calls whose per-type histograms agree
entry-for-entry are assigned the same usage ID, independent of call order and
of what other histograms are interleaved. -/
theorem usageID_equal_histograms (c0 : TypesUsageCache) (hs : List Histogram)
    (i j : Nat) (h1 h2 : Histogram)
    (hi : hs.get? i = some h1) (hj : hs.get? j = some h2)
    (heq : ∀ t, h1 t = h2 t) :
    (runUsageCalls c0 hs).1.get? i = (runUsageCalls c0 hs).1.get? j := by
  have hlist : layoutTypesList h1 = layoutTypesList h2 := by
    simp [layoutTypesList, heq]
  obtain ⟨idi, hidi, hlooki⟩ := runUsageCalls_get c0 hs i h1 hi
  obtain ⟨idj, hidj, hlookj⟩ := runUsageCalls_get c0 hs j h2 hj
  rw [hlist] at hlooki
  rw [hlooki] at hlookj
  rw [hidi, hidj, Option.some.inj hlookj]

/-- Witness for `usageID_equal_histograms`: the first and third calls use the
same histogram (separated by a different one) and receive the same ID. -/
theorem usageID_equal_histograms_witness :
    (runUsageCalls TypesUsageCache.init
      [fun _ => 1, fun _ => 2, fun _ => 1]).1.get? 0 =
    (runUsageCalls TypesUsageCache.init
      [fun _ => 1, fun _ => 2, fun _ => 1]).1.get? 2 :=
  usageID_equal_histograms TypesUsageCache.init
    [fun _ => 1, fun _ => 2, fun _ => 1] 0 2 (fun _ => 1) (fun _ => 1)
    rfl rfl (fun _ => rfl)

theorem dynPositions_length (info : List DescriptorInfo) :
    ∀ i, (dynPositions i info).length = countDyn info := by
  induction info with
  | nil => intro i; rfl
  | cons d rest ih =>
    intro i
    by_cases hd : d.DescriptorType = .uniformBufferDynamic
    · simp [dynPositions, countDyn, hd, ih (i + 1)]
      omega
    · simp [dynPositions, countDyn, hd, ih (i + 1)]

theorem setupWritesLoop_dyn (info : List DescriptorInfo) :
    ∀ i img buf tex dyn ws pairs n,
      setupWritesLoop info i img buf tex dyn = some (ws, pairs, n) →
      n = dyn + countDyn info ∧
      pairs = (dynPositions i info).zip (List.range' dyn (countDyn info)) := by
  induction info with
  | nil =>
    intro i img buf tex dyn ws pairs n h
    injection h with h
    injection h with hw h
    injection h with hp hn
    subst hp; subst hn
    exact ⟨rfl, rfl⟩
  | cons d rest ih =>
    intro i img buf tex dyn ws pairs n h
    obtain ⟨t, cnt⟩ := d
    cases t
    case uniformBufferDynamic =>
      simp only [setupWritesLoop, Option.map_eq_some'] at h
      obtain ⟨⟨ws2, pairs2, n2⟩, hrest, heq⟩ := h
      injection heq with hw heq2
      injection heq2 with hp hn
      subst hw; subst hp; subst hn
      obtain ⟨hn2, hp2⟩ := ih (i + 1) img (buf + 1) tex (dyn + 1) ws2 pairs2 n2 hrest
      constructor
      · rw [hn2]
        simp [countDyn]
        omega
      · rw [hp2]
        have h1 : dynPositions i (⟨.uniformBufferDynamic, cnt⟩ :: rest) =
            i :: dynPositions (i + 1) rest := by
          simp [dynPositions]
        have h2 : countDyn (⟨.uniformBufferDynamic, cnt⟩ :: rest) =
            countDyn rest + 1 := by
          simp [countDyn]
          omega
        rw [h1, h2, List.range'_succ]
        rfl
    case storageBufferDynamic => exact absurd h (by simp [setupWritesLoop])
    case inputAttachment => exact absurd h (by simp [setupWritesLoop])
    all_goals
      simp only [setupWritesLoop, Option.map_eq_some'] at h
      obtain ⟨⟨ws2, pairs2, n2⟩, hrest, heq⟩ := h
      injection heq with hw heq2
      injection heq2 with hp hn
      subst hw; subst hp; subst hn
      obtain ⟨hn2, hp2⟩ := ih _ _ _ _ _ _ _ _ hrest
      refine ⟨by rw [hn2]; simp [countDyn], by rw [hp2]; simp [dynPositions, countDyn]⟩

/-- C5: whenever `SetupDescriptorWrites` completes on a binding metadata list,
it returns the number of dynamic-offset bindings, and the recorded
binding-to-dynamic-offset entries pair the dynamic bindings, in declaration
order, with the dense slot indices 0, 1, 2, …: the k-th dynamic binding (in
declaration order) gets slot k-1. -/
theorem setupWrites_dense_dynamic_slots (info : List DescriptorInfo)
    (ws : List WriteDescriptor) (pairs : List (Nat × Nat)) (n : Nat)
    (h : setupDescriptorWrites info = some (ws, pairs, n)) :
    n = countDyn info ∧
    pairs = (dynPositions 0 info).zip (List.range n) ∧
    pairs.map Prod.fst = dynPositions 0 info ∧
    pairs.map Prod.snd = List.range n := by
  obtain ⟨hn, hp⟩ := setupWritesLoop_dyn info 0 0 0 0 0 ws pairs n h
  have hn2 : n = countDyn info := by omega
  have hzip : pairs = (dynPositions 0 info).zip (List.range n) := by
    rw [hp, hn2, List.range_eq_range']
  have hlen : (dynPositions 0 info).length = (List.range n).length := by
    rw [List.length_range, dynPositions_length info 0, hn2]
  refine ⟨hn2, hzip, ?_, ?_⟩
  · rw [hzip]
    exact List.map_fst_zip _ _ (Nat.le_of_eq hlen)
  · rw [hzip]
    exact List.map_snd_zip _ _ (Nat.le_of_eq hlen.symm)

/-- Witness for `setupWrites_dense_dynamic_slots`: the shape with dynamic
bindings at 0-indexed positions 1, 3, 4 yields slots 0, 1, 2 and count 3. -/
theorem setupWrites_dense_dynamic_slots_witness :
    countDyn [⟨.uniformBuffer, 1⟩, ⟨.uniformBufferDynamic, 1⟩, ⟨.sampler, 2⟩,
      ⟨.uniformBufferDynamic, 1⟩, ⟨.uniformBufferDynamic, 1⟩] = 3 ∧
    [(1, 0), (3, 1), (4, 2)] =
      (dynPositions 0 [⟨.uniformBuffer, 1⟩, ⟨.uniformBufferDynamic, 1⟩,
        ⟨.sampler, 2⟩, ⟨.uniformBufferDynamic, 1⟩,
        ⟨.uniformBufferDynamic, 1⟩]).zip (List.range 3) := by
  have h := setupWrites_dense_dynamic_slots
    [⟨.uniformBuffer, 1⟩, ⟨.uniformBufferDynamic, 1⟩, ⟨.sampler, 2⟩,
      ⟨.uniformBufferDynamic, 1⟩, ⟨.uniformBufferDynamic, 1⟩]
    [⟨0, 1, .uniformBuffer, .bufferInfo 0⟩,
      ⟨1, 1, .uniformBufferDynamic, .bufferInfo 1⟩,
      ⟨2, 2, .sampler, .imageInfo 0⟩,
      ⟨3, 1, .uniformBufferDynamic, .bufferInfo 2⟩,
      ⟨4, 1, .uniformBufferDynamic, .bufferInfo 3⟩]
    [(1, 0), (3, 1), (4, 2)] 3 rfl
  exact ⟨h.1.symm, h.2.1⟩

theorem setupWritesLoop_ptr (info : List DescriptorInfo) :
    ∀ i img buf tex dyn ws pairs n,
      setupWritesLoop info i img buf tex dyn = some (ws, pairs, n) →
      ∀ k d, info.get? k = some d →
        ∃ ck, cursorOf d.DescriptorType = some ck ∧
          ws.get? k = some
            { dstBinding := i + k, descriptorCount := d.Count,
              descriptorType := d.DescriptorType,
              ptr := ptrOf ck
                (cursorBase ck img buf tex + advanceSum ck (info.take k)) } := by
  induction info with
  | nil =>
    intro i img buf tex dyn ws pairs n h k d hk
    cases hk
  | cons d0 rest ih =>
    intro i img buf tex dyn ws pairs n h k d hk
    obtain ⟨t, cnt⟩ := d0
    cases t
    case storageBufferDynamic => exact absurd h (by simp [setupWritesLoop])
    case inputAttachment => exact absurd h (by simp [setupWritesLoop])
    all_goals
      simp only [setupWritesLoop, Option.map_eq_some'] at h
      obtain ⟨⟨ws2, pairs2, n2⟩, hrest, heq⟩ := h
      injection heq with hw heq2
      injection heq2 with hp hn
      subst hw; subst hp; subst hn
      cases k with
      | zero =>
        rw [List.get?_cons_zero] at hk
        have hd : _ = d := Option.some.inj hk
        subst hd
        exact ⟨_, rfl, by simp [cursorBase, advanceSum, ptrOf]⟩
      | succ k2 =>
        rw [List.get?_cons_succ] at hk
        obtain ⟨ck, hck, hw2⟩ := ih _ _ _ _ _ _ _ _ hrest k2 d hk
        refine ⟨ck, hck, ?_⟩
        rw [List.get?_cons_succ, hw2]
        simp only [Option.some.injEq, WriteDescriptor.mk.injEq, and_true,
          true_and, eq_self_iff_true]
        refine ⟨by omega, ?_⟩
        congr 1
        cases ck <;>
          simp [cursorBase, advanceSum, cursorOf, cursorAdvance,
            List.take_succ_cons] <;>
          omega

/-- C6 counterexample: on the metadata list with a dynamic uniform buffer of
element count 2 followed by a uniform buffer, the code gives the second write
buffer-cursor offset 1 (the dynamic case advances the buffer cursor by one),
while the claim's "sum of the element counts of all earlier bindings routed
to the same cursor" predicts offset 2. -/
theorem setupWrites_cursor_counterexample :
    setupDescriptorWrites [⟨.uniformBufferDynamic, 2⟩, ⟨.uniformBuffer, 1⟩] =
      some ([⟨0, 2, .uniformBufferDynamic, .bufferInfo 0⟩,
             ⟨1, 1, .uniformBuffer, .bufferInfo 1⟩], [(0, 0)], 1) ∧
    countSum .buffer
      ([⟨.uniformBufferDynamic, 2⟩, ⟨.uniformBuffer, 1⟩].take 1) = 2 ∧
    WritePtr.bufferInfo 1 ≠ WritePtr.bufferInfo 2 :=
  ⟨rfl, rfl, by decide⟩

/-- C6 (amended): whenever `SetupDescriptorWrites` completes, every emitted
write operation is assigned a pointer into the cursor matching its descriptor
type (image info for sampler/image types, buffer info for buffer types
including dynamic uniform buffers, texel views for texel-buffer types), and
its offset in that cursor equals the total advance of all earlier bindings
routed to the same cursor — where a dynamic uniform buffer advances the
buffer cursor by exactly one and every other recognized binding advances its
cursor by its element count. -/
theorem setupWrites_cursor_offsets (info : List DescriptorInfo)
    (ws : List WriteDescriptor) (pairs : List (Nat × Nat)) (n : Nat)
    (h : setupDescriptorWrites info = some (ws, pairs, n)) :
    ∀ k d, info.get? k = some d →
      ∃ ck, cursorOf d.DescriptorType = some ck ∧
        ws.get? k = some
          { dstBinding := k, descriptorCount := d.Count,
            descriptorType := d.DescriptorType,
            ptr := ptrOf ck (advanceSum ck (info.take k)) } := by
  intro k d hk
  obtain ⟨ck, hck, hw⟩ := setupWritesLoop_ptr info 0 0 0 0 0 ws pairs n h k d hk
  refine ⟨ck, hck, ?_⟩
  rw [hw]
  cases ck <;> simp [cursorBase]

/-- Witness for `setupWrites_cursor_offsets`: on the counterexample input the
second write (the uniform buffer) is routed to the buffer cursor at the
actual offset 1 = the dynamic binding's advance of one. -/
theorem setupWrites_cursor_offsets_witness :
    ∃ ck, cursorOf VkDescriptorType.uniformBuffer = some ck ∧
      ([⟨0, 2, .uniformBufferDynamic, .bufferInfo 0⟩,
        ⟨1, 1, .uniformBuffer, .bufferInfo 1⟩] : List WriteDescriptor).get? 1 =
        some
          { dstBinding := 1, descriptorCount := 1,
            descriptorType := .uniformBuffer,
            ptr := ptrOf ck (advanceSum ck
              ([⟨.uniformBufferDynamic, 2⟩, ⟨.uniformBuffer, 1⟩].take 1)) } :=
  setupWrites_cursor_offsets
    [⟨.uniformBufferDynamic, 2⟩, ⟨.uniformBuffer, 1⟩]
    [⟨0, 2, .uniformBufferDynamic, .bufferInfo 0⟩,
     ⟨1, 1, .uniformBuffer, .bufferInfo 1⟩]
    [(0, 0)] 1 rfl 1 ⟨.uniformBuffer, 1⟩ rfl

end DescriptorSetVulkan
